import Mathlib

/-!
# Gray-code projector/camera correspondence (`main.cpp`)

A shallow embedding of the decode stage, the capture loop and the pattern list
construction of `procam-calibration-with-graycode/main.cpp`, with theorems about
the correspondence table `c2pList` and the dense maps `c2pX`, `c2pY`.

Conventions of the embedding.

* A `cv::Mat` is a record of its `rows`, `cols` and a total cell function; the
  typed accessors `at<uint8_t>` / `at<uint16_t>` reduce the cell modulo `2^8` /
  `2^16`.
* C++ `int` values are `Int`; the two `int` products of the build loop (decoded
  coordinate times stride) are wrapped into the signed 32-bit range by
  `wrapInt32`.
* Loop counters `x`, `y` range over `0 .. camWidth-1`, `0 .. camHeight-1` and
  are `Nat`; they are cast to `Int` where the program stores them in an `int`.
* `pattern->getProjPixel`, `pattern->generate` and
  `pattern->getImagesForShadowMasks` belong to the OpenCV structured-light
  library.  The build loop takes the decoder as a parameter; a second decoder
  and a generator are modelled from the specification.
-/

namespace ProcamCalibration

/-! ## Constants (the `#define`s of `main.cpp`) -/

def WINDOWWIDTH : Nat := 1280
def WINDOWHEIGHT : Nat := 800
def GRAYCODEWIDTHSTEP : Nat := 5
def GRAYCODEHEIGHTSTEP : Nat := 5
/-- The macro `GRAYCODEWIDTH` expands to `WINDOWWIDTH / GRAYCODEWIDTHSTEP`. -/
def GRAYCODEWIDTH : Nat := WINDOWWIDTH / GRAYCODEWIDTHSTEP
/-- The macro `GRAYCODEHEIGHT` expands to `WINDOWHEIGHT / GRAYCODEHEIGHTSTEP`. -/
def GRAYCODEHEIGHT : Nat := WINDOWHEIGHT / GRAYCODEHEIGHTSTEP
def WHITETHRESHOLD : Nat := 5
def BLACKTHRESHOLD : Int := 40

/-! ## Data model -/

/-- A `cv::Mat`: its size and its cells, addressed as `(row, column)`. -/
structure Mat where
  rows : Nat
  cols : Nat
  data : Nat → Nat → Nat

/-- The accessor `m.at<uint8_t>(y, x)`. -/
def Mat.at8 (m : Mat) (y x : Nat) : Nat := m.data y x % 256

/-- The accessor `m.at<uint16_t>(y, x)` used as a value. -/
def Mat.at16 (m : Mat) (y x : Nat) : Nat := m.data y x % 65536

/-- The matrix `cv::Mat::zeros(rows, cols, _)`. -/
def Mat.zeros (rows cols : Nat) : Mat := ⟨rows, cols, fun _ _ => 0⟩

/-- The assignment `m.at<uint16_t>(y, x) = v` of an `int` value: the value is
converted to `uint16_t`, that is reduced modulo `2^16`. -/
def Mat.set16 (m : Mat) (y x : Nat) (v : Int) : Mat :=
  { m with data := fun y1 x1 => if y1 = y ∧ x1 = x then (v % 65536).toNat else m.data y1 x1 }

/-- A `cv::Point` (two `int` fields). -/
structure Point where
  x : Int
  y : Int
deriving DecidableEq, Repr

/-- The struct `C2P` (camera to projector), four `int` fields. -/
structure C2P where
  cx : Int
  cy : Int
  px : Int
  py : Int
deriving DecidableEq, Repr

/-- A 32-bit `int` result: the mathematical value reduced into `[-2^31, 2^31)`. -/
def wrapInt32 (z : Int) : Int := (z + 2147483648) % 4294967296 - 2147483648

/-- The type of `pattern->getProjPixel(captured, x, y, pixel)`: from the frames
and the camera pixel to the returned error flag (`true` is failure) and the
value left in `pixel`. -/
abbrev Decoder := List Mat → Nat → Nat → Bool × Point

/-! ## The build loop (`main.cpp`, lines 131-147) -/

/-- A counted loop `for (int i = 0; i < n; i++) body`. -/
def forLoop {σ : Type} (n : Nat) (body : Nat → σ → σ) (s : σ) : σ :=
  (List.range n).foldl (fun st i => body i st) s

/-- The variables the build loop writes. -/
structure BuildState where
  c2pX : Mat
  c2pY : Mat
  c2pList : List C2P

/-- The shadow test `white.at<uint8_t>(y, x) - black.at<uint8_t>(y, x) > t`; both
operands are promoted to `int` before the subtraction. -/
def shadowTest (t : Int) (white black : Mat) (y x : Nat) : Bool :=
  decide ((white.at8 y x : Int) - (black.at8 y x : Int) > t)

/-- The body of the inner loop (lines 136-145) at camera pixel `(x, y)`. -/
def pixelStep (getProjPixel : Decoder) (white black : Mat) (captured : List Mat)
    (y x : Nat) (st : BuildState) : BuildState :=
  if shadowTest BLACKTHRESHOLD white black y x && !(getProjPixel captured x y).1 then
    let pixel := (getProjPixel captured x y).2
    { c2pX := st.c2pX.set16 y x pixel.x
      c2pY := st.c2pY.set16 y x pixel.y
      c2pList := st.c2pList.concat
        ⟨x, y, wrapInt32 (pixel.x * GRAYCODEWIDTHSTEP), wrapInt32 (pixel.y * GRAYCODEHEIGHTSTEP)⟩ }
  else st

/-- The inner loop over `x` (line 135) for one row `y`. -/
def rowLoop (getProjPixel : Decoder) (white black : Mat) (captured : List Mat)
    (camWidth y : Nat) (st : BuildState) : BuildState :=
  forLoop camWidth (fun x s => pixelStep getProjPixel white black captured y x s) st

/-- Lines 131-147: the maps are zero-initialised, the list is empty, and the two
nested loops visit every camera pixel. -/
def buildLoop (getProjPixel : Decoder) (white black : Mat) (captured : List Mat)
    (camHeight camWidth : Nat) : BuildState :=
  forLoop camHeight (fun y s => rowLoop getProjPixel white black captured camWidth y s)
    ⟨Mat.zeros camHeight camWidth, Mat.zeros camHeight camWidth, []⟩

/-- Lines 123-126: `white = captured.back(); captured.pop_back();` twice. The
result is `none` where `back()` would be applied to an empty vector. -/
def popShadowFrames (captured : List Mat) : Option (Mat × Mat × List Mat) :=
  match captured.getLast? with
  | none => none
  | some white =>
    match captured.dropLast.getLast? with
    | none => none
    | some black => some (white, black, captured.dropLast.dropLast)

/-- Lines 123-147 as one function of the full captured sequence: `none` where the
program would index an empty vector (`back()` or `captured[0]`). -/
def decodeStage (getProjPixel : Decoder) (capturedAll : List Mat) : Option BuildState :=
  match popShadowFrames capturedAll with
  | none => none
  | some (white, black, captured) =>
    match captured with
    | [] => none
    | first :: _ => some (buildLoop getProjPixel white black captured first.rows first.cols)

/-! ## Pattern list and capture loop (`main.cpp`, lines 68-73 and 100-114) -/

/-- Line 73: `graycodes.push_back(blackCode), graycodes.push_back(whiteCode)`
applied to the generated list. -/
def patternList (generated : List Mat) (blackCode whiteCode : Mat) : List Mat :=
  (generated.concat blackCode).concat whiteCode

/-- The display, the camera and the file system as transformers of a world `ω`:
`cv::imshow("Pattern", _)`, `cv::waitKey(_)`, `getCameraImage()` and
`cv::imwrite` of the file numbered `cnt`. -/
structure Devices (ω : Type) where
  imshow : Mat → ω → ω
  waitKey : Nat → ω → ω
  getCameraImage : ω → Mat × ω
  imwrite : Nat → Mat → ω → ω

/-- The variables of the capture loop. -/
structure CaptureState (ω : Type) where
  world : ω
  cnt : Nat
  captured : List Mat

/-- The frame `getCameraImage()` returns when `gimg` is put on the display in
world `w` and the program has waited 400 ms. -/
def frameShown {ω : Type} (d : Devices ω) (gimg : Mat) (w : ω) : Mat :=
  (d.getCameraImage (d.waitKey 400 (d.imshow gimg w))).1

/-- The body of the capture loop (lines 103-113). -/
def captureBody {ω : Type} (d : Devices ω) (gimg : Mat) (st : CaptureState ω) :
    CaptureState ω :=
  let w1 := d.imshow gimg st.world
  let w2 := d.waitKey 400 w1
  let r := d.getCameraImage w2
  { world := d.imwrite st.cnt r.1 r.2
    cnt := st.cnt + 1
    captured := st.captured.concat r.1 }

/-- Lines 100-114: `for (auto gimg : graycodes)` from an empty `captured`. -/
def captureLoop {ω : Type} (d : Devices ω) (graycodes : List Mat) (w : ω) :
    CaptureState ω :=
  graycodes.foldl (fun st gimg => captureBody d gimg st) ⟨w, 0, []⟩

/-! ## Foreground count -/

/-- The number of camera pixels that pass the shadow test at threshold `t`,
counted in the scan order of the build loop. -/
def foregroundCount (t : Int) (white black : Mat) (camHeight camWidth : Nat) : Nat :=
  forLoop camHeight (fun y n =>
    forLoop camWidth (fun x m => if shadowTest t white black y x then m + 1 else m) n) 0

/-! ## The library side, modelled from the specification -/

/-- Modelled from the spec: the search behind `ceil(log2(n))`, for the least `k`
at or above the given one with `n ≤ 2 ^ k`; the library function that computes the
number of bit-planes is not part of `main.cpp`. -/
def ceilLog2Aux (n : Nat) : Nat → Nat → Nat
  | 0, k => k
  | fuel + 1, k => if n ≤ 2 ^ k then k else ceilLog2Aux n fuel (k + 1)

/-- Modelled from the spec: `ceil(log2(n))`, the number of Gray-code bits of an
axis of `n` cells, as the least `k` with `n ≤ 2 ^ k`. The library function that
computes it is not part of `main.cpp`. -/
def ceilLog2 (n : Nat) : Nat := ceilLog2Aux n n 0

/-- Modelled from the spec: step 2 of the per-pixel decoder (section 4.3) for
bit-plane `k`, whose positive and negative frames are frames `2k` and `2k+1` of
the sequence. The bit is undecidable (`none`) when the two intensities differ by
less than `whiteThreshold`, and also when a frame is missing; otherwise it is
`1` iff `positive > negative`. The library decoder is not part of `main.cpp`. -/
def readBit (whiteThreshold : Nat) (frames : List Mat) (x y k : Nat) : Option Bool :=
  match frames[2 * k]?, frames[2 * k + 1]? with
  | some pos, some neg =>
    if Int.natAbs ((pos.at8 y x : Int) - (neg.at8 y x : Int)) < whiteThreshold then none
    else some (decide ((pos.at8 y x : Int) > (neg.at8 y x : Int)))
  | _, _ => none

/-- Modelled from the spec: the bits of `n` consecutive bit-planes starting at
plane `k`, most significant first; `none` as soon as one bit is undecidable. -/
def readBits (whiteThreshold : Nat) (frames : List Mat) (x y : Nat) : Nat → Nat → Option (List Bool)
  | _, 0 => some []
  | k, n + 1 =>
    match readBit whiteThreshold frames x y k with
    | none => none
    | some b =>
      match readBits whiteThreshold frames x y (k + 1) n with
      | none => none
      | some bs => some (b :: bs)

/-- Modelled from the spec: `binary[i] = binary[i-1] XOR gray[i]`. -/
def grayToBinaryFrom (prev : Bool) : List Bool → List Bool
  | [] => []
  | g :: gs => (xor prev g) :: grayToBinaryFrom (xor prev g) gs

/-- Modelled from the spec: Gray code to standard binary, most significant bit
first: `binary[0] = gray[0]; binary[i] = binary[i-1] XOR gray[i]`. -/
def grayToBinary : List Bool → List Bool
  | [] => []
  | g :: gs => g :: grayToBinaryFrom g gs

/-- Modelled from the spec: the integer with the given binary digits, most
significant first (the value the library decoder accumulates; the decoder is not
part of `main.cpp`). -/
def bitsToNat (bits : List Bool) : Nat :=
  bits.foldl (fun acc b => 2 * acc + b.toNat) 0

/-- Modelled from the spec: step 3 of the decoder for one axis, the index decoded
from `n` bit-planes starting at plane `k` (`none` when a bit is undecidable). -/
def decodeAxis (whiteThreshold : Nat) (frames : List Mat) (x y k n : Nat) : Option Nat :=
  match readBits whiteThreshold frames x y k n with
  | none => none
  | some gray => some (bitsToNat (grayToBinary gray))

/-- Modelled from the spec: steps 2-4 of `decodePixel` (section 4.3) for a
pattern of `Wp × Hp` cells: the horizontal group of bit-planes, then the vertical
group, Gray to binary, and the bounds check against `[0, Wp) × [0, Hp)`. Step 1
(the shadow test) and step 5 (the stride) are in `main.cpp` itself. -/
def decodePixelSpec (Wp Hp whiteThreshold : Nat) (frames : List Mat) (x y : Nat) :
    Option Point :=
  match decodeAxis whiteThreshold frames x y 0 (ceilLog2 Wp),
      decodeAxis whiteThreshold frames x y (ceilLog2 Wp) (ceilLog2 Hp) with
  | some col, some row => if col < Wp ∧ row < Hp then some ⟨col, row⟩ else none
  | _, _ => none

/-- Modelled from the spec: `pattern->getProjPixel` as configured by `main`
(`params.width = GRAYCODEWIDTH`, `params.height = GRAYCODEHEIGHT`,
`setWhiteThreshold(WHITETHRESHOLD)`), with the return convention `main` relies
on: `true` is failure. The library decoder is not part of `main.cpp`. -/
def getProjPixelSpec : Decoder := fun captured x y =>
  match decodePixelSpec GRAYCODEWIDTH GRAYCODEHEIGHT WHITETHRESHOLD captured x y with
  | some p => (false, p)
  | none => (true, ⟨0, 0⟩)

/-- Modelled from the spec: the binary-reflected Gray code of `c`. -/
def binaryToGray (c : Nat) : Nat := c ^^^ (c >>> 1)

/-- Modelled from the spec: the stripe image of bit-plane `k` (most significant
first) of an `nbits`-bit Gray code, over the columns (`horizontal = true`) or the
rows of a `Wp × Hp` pattern; `positive = false` gives the inverted companion. -/
def stripeImage (Wp Hp nbits k : Nat) (horizontal positive : Bool) : Mat :=
  ⟨Hp, Wp, fun r c =>
    if (binaryToGray (if horizontal then c else r)).testBit (nbits - 1 - k) == positive
    then 255 else 0⟩

/-- Modelled from the spec: `pattern->generate` (sections 3 and 4.1): for each
bit of the horizontal code and then each bit of the vertical code, the positive
image followed by its negative. The library generator is not part of
`main.cpp`. -/
def generateSpec (Wp Hp : Nat) : List Mat :=
  (List.range (ceilLog2 Wp)).flatMap (fun k =>
      [stripeImage Wp Hp (ceilLog2 Wp) k true true, stripeImage Wp Hp (ceilLog2 Wp) k true false])
    ++ (List.range (ceilLog2 Hp)).flatMap (fun k =>
      [stripeImage Wp Hp (ceilLog2 Hp) k false true, stripeImage Wp Hp (ceilLog2 Hp) k false false])

/-- Modelled from the spec: `pattern->getImagesForShadowMasks(black, white)`, the
all-black and the all-white full-field image. -/
def getImagesForShadowMasksSpec (Wp Hp : Nat) : Mat × Mat :=
  (⟨Hp, Wp, fun _ _ => 0⟩, ⟨Hp, Wp, fun _ _ => 255⟩)

/-- Lines 55-73 with the modelled library: the list `graycodes` that `main`
projects. -/
def graycodesSpec : List Mat :=
  patternList (generateSpec GRAYCODEWIDTH GRAYCODEHEIGHT)
    (getImagesForShadowMasksSpec GRAYCODEWIDTH GRAYCODEHEIGHT).1
    (getImagesForShadowMasksSpec GRAYCODEWIDTH GRAYCODEHEIGHT).2

/-! ## Closed forms used in the proofs -/

/-- The guard of `pixelStep` at camera pixel `(x, y)`. -/
def accepted (getProjPixel : Decoder) (white black : Mat) (captured : List Mat)
    (y x : Nat) : Bool :=
  shadowTest BLACKTHRESHOLD white black y x && !(getProjPixel captured x y).1

/-- The entry `pixelStep` appends at camera pixel `(x, y)` when its guard holds. -/
def entryAt (getProjPixel : Decoder) (captured : List Mat) (y x : Nat) : C2P :=
  ⟨x, y, wrapInt32 ((getProjPixel captured x y).2.x * GRAYCODEWIDTHSTEP),
    wrapInt32 ((getProjPixel captured x y).2.y * GRAYCODEHEIGHTSTEP)⟩

/-- The entries one row of the scan contributes, in scan order. -/
def rowEntries (getProjPixel : Decoder) (white black : Mat) (captured : List Mat)
    (camWidth y : Nat) : List C2P :=
  (List.range camWidth).filterMap (fun x =>
    if accepted getProjPixel white black captured y x then
      some (entryAt getProjPixel captured y x) else none)

/-- Row-major order of camera coordinates: lexicographic on `(cy, cx)`. -/
def scanBefore (a b : C2P) : Prop := a.cy < b.cy ∨ (a.cy = b.cy ∧ a.cx < b.cx)

/-- The table has an entry whose camera coordinate is `(x, y)`. -/
def hasEntryAt (table : List C2P) (x y : Nat) : Prop :=
  ∃ e ∈ table, e.cx = (x : Int) ∧ e.cy = (y : Int)

/-- The capture loop continued from an arbitrary state. -/
def captureFrom {ω : Type} (d : Devices ω) (graycodes : List Mat) (st : CaptureState ω) :
    CaptureState ω :=
  graycodes.foldl (fun s gimg => captureBody d gimg s) st

/-! ## Concrete inputs used to instantiate the theorems -/

/-- A frame of uniform intensity `v`. -/
def constMat (rows cols v : Nat) : Mat := ⟨rows, cols, fun _ _ => v⟩

/-- A decoder that always succeeds with pattern cell `(2, 1)`. -/
def decoderTwoOne : Decoder := fun _ _ _ => (false, ⟨2, 1⟩)

/-- Thirty-two frames in which every bit-plane reads as a clear `1`
(positive 200, negative 0). -/
def framesAllOnes : List Mat :=
  (List.range 32).map (fun i => if i % 2 = 0 then constMat 2 2 200 else constMat 2 2 0)

/-- Thirty-two frames of equal intensity: no bit-plane has any contrast. -/
def framesFlat : List Mat := List.replicate 32 (constMat 2 2 90)

/-- The frames of a capture in which bit-plane `k` reads as a clear `bits[k]`
at every pixel: intensity 200 against 0, in the order the bit demands. -/
def framesOfBits (bits : List Bool) : List Mat :=
  bits.flatMap (fun b =>
    if b then [constMat 1 1 200, constMat 1 1 0] else [constMat 1 1 0, constMat 1 1 200])

/-- A noiseless capture of projector column 2 (Gray code `00000011`) and row 1
(Gray code `00000001`). -/
def framesTwoOne : List Mat :=
  framesOfBits [false, false, false, false, false, false, true, true,
    false, false, false, false, false, false, false, true]

/-- A device record over the world of all frames shown so far: the camera returns
a uniform frame whose intensity is the number of images shown. -/
def countingDevices : Devices Nat where
  imshow := fun _ w => w + 1
  waitKey := fun _ w => w
  getCameraImage := fun w => (constMat 2 2 w, w)
  imwrite := fun _ _ w => w

/-! ## Loop lemmas -/

theorem forLoop_zero {σ : Type} (body : Nat → σ → σ) (s : σ) : forLoop 0 body s = s := rfl

theorem forLoop_succ {σ : Type} (n : Nat) (body : Nat → σ → σ) (s : σ) :
    forLoop (n + 1) body s = body n (forLoop n body s) := by
  simp [forLoop, List.range_succ, List.foldl_append]

theorem pixelStep_list (dec : Decoder) (white black : Mat) (captured : List Mat)
    (y x : Nat) (st : BuildState) :
    (pixelStep dec white black captured y x st).c2pList =
      st.c2pList ++ (if accepted dec white black captured y x then
        [entryAt dec captured y x] else []) := by
  unfold pixelStep accepted entryAt
  split <;> simp

theorem rowLoop_list (dec : Decoder) (white black : Mat) (captured : List Mat)
    (camWidth y : Nat) (st : BuildState) :
    (rowLoop dec white black captured camWidth y st).c2pList =
      st.c2pList ++ rowEntries dec white black captured camWidth y := by
  induction camWidth with
  | zero => simp [rowLoop, forLoop_zero, rowEntries]
  | succ n ih =>
    have hstep : rowLoop dec white black captured (n + 1) y st =
        pixelStep dec white black captured y n (rowLoop dec white black captured n y st) := by
      simp [rowLoop, forLoop_succ]
    rw [hstep, pixelStep_list, ih]
    simp only [rowEntries, List.range_succ, List.filterMap_append, List.append_assoc]
    congr 1
    congr 1
    by_cases h : accepted dec white black captured y n = true <;> simp [h]

theorem rowsLoop_list (dec : Decoder) (white black : Mat) (captured : List Mat)
    (camWidth n : Nat) (st : BuildState) :
    (forLoop n (fun y s => rowLoop dec white black captured camWidth y s) st).c2pList =
      st.c2pList ++ (List.range n).flatMap (rowEntries dec white black captured camWidth) := by
  induction n with
  | zero => simp [forLoop_zero]
  | succ n ih =>
    rw [forLoop_succ, rowLoop_list, ih]
    simp [List.range_succ, List.flatMap_append]

theorem buildLoop_list (dec : Decoder) (white black : Mat) (captured : List Mat)
    (camHeight camWidth : Nat) :
    (buildLoop dec white black captured camHeight camWidth).c2pList =
      (List.range camHeight).flatMap (rowEntries dec white black captured camWidth) := by
  simp [buildLoop, rowsLoop_list]

theorem mem_rowEntries (dec : Decoder) (white black : Mat) (captured : List Mat)
    (camWidth y : Nat) (e : C2P) :
    e ∈ rowEntries dec white black captured camWidth y ↔
      ∃ x, x < camWidth ∧ accepted dec white black captured y x = true ∧
        e = entryAt dec captured y x := by
  simp only [rowEntries, List.mem_filterMap, List.mem_range]
  constructor
  · rintro ⟨x, hx, h⟩
    by_cases ha : accepted dec white black captured y x = true
    · simp [ha] at h
      exact ⟨x, hx, ha, h.symm⟩
    · simp [ha] at h
  · rintro ⟨x, hx, ha, rfl⟩
    exact ⟨x, hx, by simp [ha]⟩

theorem mem_buildLoop_list (dec : Decoder) (white black : Mat) (captured : List Mat)
    (camHeight camWidth : Nat) (e : C2P) :
    e ∈ (buildLoop dec white black captured camHeight camWidth).c2pList ↔
      ∃ y, y < camHeight ∧ ∃ x, x < camWidth ∧
        accepted dec white black captured y x = true ∧ e = entryAt dec captured y x := by
  simp only [buildLoop_list, List.mem_flatMap, List.mem_range, mem_rowEntries]

theorem accepted_iff (dec : Decoder) (white black : Mat) (captured : List Mat) (y x : Nat) :
    accepted dec white black captured y x = true ↔
      ((white.at8 y x : Int) - (black.at8 y x : Int) > 40 ∧ (dec captured x y).1 = false) := by
  simp [accepted, shadowTest, BLACKTHRESHOLD]

theorem hasEntryAt_buildLoop (dec : Decoder) (white black : Mat) (captured : List Mat)
    (camHeight camWidth x y : Nat) :
    hasEntryAt (buildLoop dec white black captured camHeight camWidth).c2pList x y ↔
      (x < camWidth ∧ y < camHeight ∧ accepted dec white black captured y x = true) := by
  unfold hasEntryAt
  constructor
  · rintro ⟨e, he, hcx, hcy⟩
    obtain ⟨y1, hy1, x1, hx1, hacc, rfl⟩ := (mem_buildLoop_list _ _ _ _ _ _ _).1 he
    simp only [entryAt, Nat.cast_inj] at hcx hcy
    subst hcx
    subst hcy
    exact ⟨hx1, hy1, hacc⟩
  · rintro ⟨hx, hy, hacc⟩
    exact ⟨entryAt dec captured y x,
      (mem_buildLoop_list _ _ _ _ _ _ _).2 ⟨y, hy, x, hx, hacc, rfl⟩, rfl, rfl⟩

theorem wrapInt32_of_fits (z : Int) (h : -2147483648 ≤ z ∧ z < 2147483648) :
    wrapInt32 z = z := by
  unfold wrapInt32
  omega

/-! ## The dense maps -/

theorem pixelStep_c2pX (dec : Decoder) (white black : Mat) (captured : List Mat)
    (y x : Nat) (st : BuildState) (y1 x1 : Nat) :
    (pixelStep dec white black captured y x st).c2pX.data y1 x1 =
      if (y1 = y ∧ x1 = x) ∧ accepted dec white black captured y x = true then
        ((dec captured x y).2.x % 65536).toNat
      else st.c2pX.data y1 x1 := by
  unfold pixelStep accepted
  by_cases hg : (shadowTest BLACKTHRESHOLD white black y x && !(dec captured x y).1) = true
  · by_cases hp : y1 = y ∧ x1 = x <;> simp [hg, hp, Mat.set16]
  · simp [hg]

theorem pixelStep_c2pY (dec : Decoder) (white black : Mat) (captured : List Mat)
    (y x : Nat) (st : BuildState) (y1 x1 : Nat) :
    (pixelStep dec white black captured y x st).c2pY.data y1 x1 =
      if (y1 = y ∧ x1 = x) ∧ accepted dec white black captured y x = true then
        ((dec captured x y).2.y % 65536).toNat
      else st.c2pY.data y1 x1 := by
  unfold pixelStep accepted
  by_cases hg : (shadowTest BLACKTHRESHOLD white black y x && !(dec captured x y).1) = true
  · by_cases hp : y1 = y ∧ x1 = x <;> simp [hg, hp, Mat.set16]
  · simp [hg]

theorem rowLoop_c2pX (dec : Decoder) (white black : Mat) (captured : List Mat)
    (camWidth y : Nat) (st : BuildState) (y1 x1 : Nat) :
    (rowLoop dec white black captured camWidth y st).c2pX.data y1 x1 =
      if (y1 = y ∧ x1 < camWidth) ∧ accepted dec white black captured y x1 = true then
        ((dec captured x1 y).2.x % 65536).toNat
      else st.c2pX.data y1 x1 := by
  induction camWidth with
  | zero => simp [rowLoop, forLoop_zero]
  | succ n ih =>
    have hstep : rowLoop dec white black captured (n + 1) y st =
        pixelStep dec white black captured y n (rowLoop dec white black captured n y st) := by
      simp [rowLoop, forLoop_succ]
    rw [hstep, pixelStep_c2pX, ih]
    by_cases hx : x1 = n
    · subst hx
      by_cases hy : y1 = y <;> simp [hy]
    · have h1 : (x1 < n + 1) ↔ (x1 < n) := by omega
      simp [hx, h1]

theorem rowLoop_c2pY (dec : Decoder) (white black : Mat) (captured : List Mat)
    (camWidth y : Nat) (st : BuildState) (y1 x1 : Nat) :
    (rowLoop dec white black captured camWidth y st).c2pY.data y1 x1 =
      if (y1 = y ∧ x1 < camWidth) ∧ accepted dec white black captured y x1 = true then
        ((dec captured x1 y).2.y % 65536).toNat
      else st.c2pY.data y1 x1 := by
  induction camWidth with
  | zero => simp [rowLoop, forLoop_zero]
  | succ n ih =>
    have hstep : rowLoop dec white black captured (n + 1) y st =
        pixelStep dec white black captured y n (rowLoop dec white black captured n y st) := by
      simp [rowLoop, forLoop_succ]
    rw [hstep, pixelStep_c2pY, ih]
    by_cases hx : x1 = n
    · subst hx
      by_cases hy : y1 = y <;> simp [hy]
    · have h1 : (x1 < n + 1) ↔ (x1 < n) := by omega
      simp [hx, h1]

theorem rowsLoop_c2pX (dec : Decoder) (white black : Mat) (captured : List Mat)
    (camWidth n : Nat) (st : BuildState) (y1 x1 : Nat) :
    (forLoop n (fun y s => rowLoop dec white black captured camWidth y s) st).c2pX.data y1 x1 =
      if (y1 < n ∧ x1 < camWidth) ∧ accepted dec white black captured y1 x1 = true then
        ((dec captured x1 y1).2.x % 65536).toNat
      else st.c2pX.data y1 x1 := by
  induction n with
  | zero => simp [forLoop_zero]
  | succ n ih =>
    rw [forLoop_succ, rowLoop_c2pX, ih]
    by_cases hy : y1 = n
    · subst hy
      simp
    · have h1 : (y1 < n + 1) ↔ (y1 < n) := by omega
      simp [hy, h1]

theorem rowsLoop_c2pY (dec : Decoder) (white black : Mat) (captured : List Mat)
    (camWidth n : Nat) (st : BuildState) (y1 x1 : Nat) :
    (forLoop n (fun y s => rowLoop dec white black captured camWidth y s) st).c2pY.data y1 x1 =
      if (y1 < n ∧ x1 < camWidth) ∧ accepted dec white black captured y1 x1 = true then
        ((dec captured x1 y1).2.y % 65536).toNat
      else st.c2pY.data y1 x1 := by
  induction n with
  | zero => simp [forLoop_zero]
  | succ n ih =>
    rw [forLoop_succ, rowLoop_c2pY, ih]
    by_cases hy : y1 = n
    · subst hy
      simp
    · have h1 : (y1 < n + 1) ↔ (y1 < n) := by omega
      simp [hy, h1]

theorem buildLoop_c2pX (dec : Decoder) (white black : Mat) (captured : List Mat)
    (camHeight camWidth y x : Nat) :
    (buildLoop dec white black captured camHeight camWidth).c2pX.data y x =
      if (y < camHeight ∧ x < camWidth) ∧ accepted dec white black captured y x = true then
        ((dec captured x y).2.x % 65536).toNat
      else 0 := by
  simp [buildLoop, rowsLoop_c2pX, Mat.zeros]

theorem buildLoop_c2pY (dec : Decoder) (white black : Mat) (captured : List Mat)
    (camHeight camWidth y x : Nat) :
    (buildLoop dec white black captured camHeight camWidth).c2pY.data y x =
      if (y < camHeight ∧ x < camWidth) ∧ accepted dec white black captured y x = true then
        ((dec captured x y).2.y % 65536).toNat
      else 0 := by
  simp [buildLoop, rowsLoop_c2pY, Mat.zeros]

/-! ## Order and size of the table -/

theorem length_rowEntries_le (dec : Decoder) (white black : Mat) (captured : List Mat)
    (camWidth y : Nat) :
    (rowEntries dec white black captured camWidth y).length ≤ camWidth := by
  unfold rowEntries
  exact (List.length_filterMap_le _ _).trans (by simp)

theorem length_rows_le (dec : Decoder) (white black : Mat) (captured : List Mat)
    (camWidth n : Nat) :
    ((List.range n).flatMap (rowEntries dec white black captured camWidth)).length ≤
      camWidth * n := by
  induction n with
  | zero => simp
  | succ n ih =>
    rw [List.range_succ, List.flatMap_append, List.length_append]
    have h := length_rowEntries_le dec white black captured camWidth n
    simp only [List.flatMap_cons, List.flatMap_nil, List.append_nil]
    rw [Nat.mul_succ]
    omega

theorem pairwise_rowEntries (dec : Decoder) (white black : Mat) (captured : List Mat)
    (camWidth y : Nat) :
    List.Pairwise scanBefore (rowEntries dec white black captured camWidth y) := by
  unfold rowEntries
  rw [List.pairwise_filterMap]
  refine List.Pairwise.imp ?_ (List.pairwise_lt_range camWidth)
  intro a b hab e he e1 he1
  by_cases ha : accepted dec white black captured y a = true
  · by_cases hb : accepted dec white black captured y b = true
    · simp [ha] at he
      simp [hb] at he1
      subst he
      subst he1
      right
      simp [entryAt, hab]
    · simp [hb] at he1
  · simp [ha] at he

theorem pairwise_buildLoop (dec : Decoder) (white black : Mat) (captured : List Mat)
    (camHeight camWidth : Nat) :
    List.Pairwise scanBefore (buildLoop dec white black captured camHeight camWidth).c2pList := by
  rw [buildLoop_list, List.pairwise_flatMap]
  refine ⟨fun y _ => pairwise_rowEntries dec white black captured camWidth y, ?_⟩
  refine List.Pairwise.imp ?_ (List.pairwise_lt_range camHeight)
  intro a b hab e he e1 he1
  obtain ⟨x, _, _, rfl⟩ := (mem_rowEntries _ _ _ _ _ _ _).1 he
  obtain ⟨x1, _, _, rfl⟩ := (mem_rowEntries _ _ _ _ _ _ _).1 he1
  left
  simp [entryAt, hab]

/-! ## Claims about the build loop, for an arbitrary decoder -/

/-- C1: for a camera pixel `(x, y)` inside the camera frame, the build loop emits
an entry with camera coordinate `(x, y)` if and only if the signed difference
`white[y,x] - black[y,x]` of the two 8-bit intensities exceeds `BLACKTHRESHOLD`
(40) and the decoder returns `false` (success) for `(x, y)`; a pixel whose
difference is at most 40 has no entry whatever the decoder returns. -/
theorem c1_entry_iff_shadow_and_decoder (dec : Decoder) (white black : Mat)
    (captured : List Mat) (camHeight camWidth x y : Nat)
    (hx : x < camWidth) (hy : y < camHeight) :
    ((∃ e ∈ (buildLoop dec white black captured camHeight camWidth).c2pList,
        e.cx = (x : Int) ∧ e.cy = (y : Int)) ↔
      ((white.at8 y x : Int) - (black.at8 y x : Int) > BLACKTHRESHOLD ∧
        (dec captured x y).1 = false)) ∧
    ((white.at8 y x : Int) - (black.at8 y x : Int) ≤ 40 →
      ¬ ∃ e ∈ (buildLoop dec white black captured camHeight camWidth).c2pList,
        e.cx = (x : Int) ∧ e.cy = (y : Int)) := by
  have key := hasEntryAt_buildLoop dec white black captured camHeight camWidth x y
  unfold hasEntryAt at key
  rw [accepted_iff] at key
  refine ⟨?_, ?_⟩
  · rw [key]
    simp [hx, hy, BLACKTHRESHOLD]
  · intro hle hex
    have := (key.1 hex).2.2.1
    omega

/-- An instance of C1: with bright white frame, dark black frame and a decoder
that succeeds, pixel `(1, 1)` of a 3 × 2 camera has an entry. -/
theorem c1_entry_iff_shadow_and_decoder_witness :
    1 < 3 ∧ 1 < 2 ∧
    ∃ e ∈ (buildLoop decoderTwoOne (constMat 2 3 100) (constMat 2 3 10) [] 2 3).c2pList,
      e.cx = ((1 : Nat) : Int) ∧ e.cy = ((1 : Nat) : Int) :=
  ⟨by decide, by decide,
    ((c1_entry_iff_shadow_and_decoder decoderTwoOne (constMat 2 3 100) (constMat 2 3 10) []
      2 3 1 1 (by decide) (by decide)).1).2 ⟨by decide, rfl⟩⟩

/-- C2: when camera pixel `(x, y)` passes the shadow test and the decoder succeeds
there with pattern coordinate `(u, v)`, the loop body appends exactly the entry
`(x, y, u * GRAYCODEWIDTHSTEP, v * GRAYCODEHEIGHTSTEP) = (x, y, 5u, 5v)`, this
entry is in the final table, and it is the only entry of the table with camera
coordinate `(x, y)`. The two products are C++ `int` products, so `5u` and `5v`
are required to fit in an `int`, which every pattern coordinate does. -/
theorem c2_entry_is_stride_scaled (dec : Decoder) (white black : Mat)
    (captured : List Mat) (camHeight camWidth x y : Nat) (u v : Int)
    (hx : x < camWidth) (hy : y < camHeight)
    (hshadow : (white.at8 y x : Int) - (black.at8 y x : Int) > BLACKTHRESHOLD)
    (hdec : dec captured x y = (false, ⟨u, v⟩))
    (hu : -2147483648 ≤ u * 5 ∧ u * 5 < 2147483648)
    (hv : -2147483648 ≤ v * 5 ∧ v * 5 < 2147483648) :
    (∀ st : BuildState, (pixelStep dec white black captured y x st).c2pList =
        st.c2pList ++ [⟨x, y, u * GRAYCODEWIDTHSTEP, v * GRAYCODEHEIGHTSTEP⟩]) ∧
    (⟨x, y, 5 * u, 5 * v⟩ : C2P) ∈
      (buildLoop dec white black captured camHeight camWidth).c2pList ∧
    (∀ e ∈ (buildLoop dec white black captured camHeight camWidth).c2pList,
      e.cx = (x : Int) → e.cy = (y : Int) → e = ⟨x, y, 5 * u, 5 * v⟩) := by
  have hacc : accepted dec white black captured y x = true := by
    rw [accepted_iff]
    exact ⟨by simpa [BLACKTHRESHOLD] using hshadow, by rw [hdec]⟩
  have hentry : entryAt dec captured y x = ⟨x, y, 5 * u, 5 * v⟩ := by
    have h1 : wrapInt32 (u * 5) = u * 5 := wrapInt32_of_fits _ hu
    have h2 : wrapInt32 (v * 5) = v * 5 := wrapInt32_of_fits _ hv
    simp only [entryAt, hdec, GRAYCODEWIDTHSTEP, GRAYCODEHEIGHTSTEP, Nat.cast_ofNat, h1, h2]
    simp [mul_comm]
  have hentry1 : entryAt dec captured y x =
      ⟨x, y, u * GRAYCODEWIDTHSTEP, v * GRAYCODEHEIGHTSTEP⟩ := by
    rw [hentry]
    simp [GRAYCODEWIDTHSTEP, GRAYCODEHEIGHTSTEP, mul_comm]
  refine ⟨?_, ?_, ?_⟩
  · intro st
    rw [pixelStep_list, hacc, ← hentry1]
    simp
  · rw [← hentry]
    exact (mem_buildLoop_list _ _ _ _ _ _ _).2 ⟨y, hy, x, hx, hacc, rfl⟩
  · intro e he hcx hcy
    obtain ⟨y1, _, x1, _, _, rfl⟩ := (mem_buildLoop_list _ _ _ _ _ _ _).1 he
    simp only [entryAt, Nat.cast_inj] at hcx hcy
    subst hcx
    subst hcy
    exact hentry

/-- The example of C2: camera pixel `(10, 10)` that decodes to projector column
2, row 1 yields the entry `(10, 10, 10, 5)`. -/
theorem c2_entry_is_stride_scaled_witness :
    (⟨10, 10, 10, 5⟩ : C2P) ∈
      (buildLoop decoderTwoOne (constMat 11 11 100) (constMat 11 11 10) [] 11 11).c2pList :=
  (c2_entry_is_stride_scaled decoderTwoOne (constMat 11 11 100) (constMat 11 11 10) []
    11 11 10 10 2 1 (by decide) (by decide) (by decide) rfl
    (by decide) (by decide)).2.1

/-- C3: the table is in row-major scan order, that is strictly increasing in the
lexicographic order on `(cy, cx)`; hence no two entries share a camera
coordinate, and the table has at most `camWidth * camHeight` entries. -/
theorem c3_table_row_major (dec : Decoder) (white black : Mat) (captured : List Mat)
    (camHeight camWidth : Nat) :
    List.Pairwise (fun a b : C2P => a.cy < b.cy ∨ (a.cy = b.cy ∧ a.cx < b.cx))
      (buildLoop dec white black captured camHeight camWidth).c2pList ∧
    ((buildLoop dec white black captured camHeight camWidth).c2pList.map
      (fun e => (e.cx, e.cy))).Nodup ∧
    (buildLoop dec white black captured camHeight camWidth).c2pList.length ≤
      camWidth * camHeight := by
  have hpw := pairwise_buildLoop dec white black captured camHeight camWidth
  refine ⟨hpw, ?_, ?_⟩
  · rw [List.Nodup, List.pairwise_map]
    refine List.Pairwise.imp ?_ hpw
    intro a b hab heq
    simp only [Prod.mk.injEq] at heq
    rcases hab with h | ⟨_, h⟩
    · omega
    · omega
  · rw [buildLoop_list]
    exact length_rows_le dec white black captured camWidth camHeight

/-- C9: a camera pixel `(x, y)` without an entry in the table still has the zero
default in both dense maps; and handling one pixel `(x0, y0)` leaves every map
slot other than `(y0, x0)` as it was. -/
theorem c9_maps_untouched_without_entry (dec : Decoder) (white black : Mat)
    (captured : List Mat) (camHeight camWidth x y : Nat)
    (hno : ¬ ∃ e ∈ (buildLoop dec white black captured camHeight camWidth).c2pList,
      e.cx = (x : Int) ∧ e.cy = (y : Int)) :
    ((buildLoop dec white black captured camHeight camWidth).c2pX.at16 y x = 0 ∧
      (buildLoop dec white black captured camHeight camWidth).c2pY.at16 y x = 0) ∧
    (∀ (st : BuildState) (y0 x0 y1 x1 : Nat), ¬ (y1 = y0 ∧ x1 = x0) →
      (pixelStep dec white black captured y0 x0 st).c2pX.at16 y1 x1 = st.c2pX.at16 y1 x1 ∧
      (pixelStep dec white black captured y0 x0 st).c2pY.at16 y1 x1 = st.c2pY.at16 y1 x1) := by
  have key := hasEntryAt_buildLoop dec white black captured camHeight camWidth x y
  unfold hasEntryAt at key
  rw [key] at hno
  have hcond : ¬ ((y < camHeight ∧ x < camWidth) ∧
      accepted dec white black captured y x = true) := by
    rintro ⟨⟨h1, h2⟩, h3⟩
    exact hno ⟨h2, h1, h3⟩
  refine ⟨⟨?_, ?_⟩, ?_⟩
  · simp only [Mat.at16, buildLoop_c2pX, if_neg hcond]
  · simp only [Mat.at16, buildLoop_c2pY, if_neg hcond]
  · intro st y0 x0 y1 x1 hne
    have hc : ¬ ((y1 = y0 ∧ x1 = x0) ∧ accepted dec white black captured y0 x0 = true) :=
      fun h => hne h.1
    constructor
    · simp only [Mat.at16, pixelStep_c2pX, if_neg hc]
    · simp only [Mat.at16, pixelStep_c2pY, if_neg hc]

/-- An instance of C9: with equal white and black frames no pixel passes the
shadow test, and the maps are zero at `(1, 1)`. -/
theorem c9_maps_untouched_without_entry_witness :
    (buildLoop decoderTwoOne (constMat 2 3 10) (constMat 2 3 10) [] 2 3).c2pX.at16 1 1 = 0 ∧
    (buildLoop decoderTwoOne (constMat 2 3 10) (constMat 2 3 10) [] 2 3).c2pY.at16 1 1 = 0 :=
  (c9_maps_untouched_without_entry decoderTwoOne (constMat 2 3 10) (constMat 2 3 10) []
    2 3 1 1 (by decide)).1

/-! ## Shadow-mask monotonicity -/

theorem forLoop_le_forLoop (n : Nat) (f g : Nat → Nat → Nat)
    (hfg : ∀ i a b, a ≤ b → f i a ≤ g i b) (a b : Nat) (hab : a ≤ b) :
    forLoop n f a ≤ forLoop n g b := by
  induction n with
  | zero => simpa [forLoop_zero] using hab
  | succ n ih =>
    rw [forLoop_succ, forLoop_succ]
    exact hfg n _ _ ih

/-- C8: for fixed white and black frames the shadow test is monotone in the
threshold: for `t1 ≤ t2` every pixel that is foreground at `t2` is foreground at
`t1`, and the foreground count at `t1` is at least the count at `t2`. -/
theorem c8_shadow_test_monotone (white black : Mat) (camHeight camWidth : Nat)
    (t1 t2 : Int) (h : t1 ≤ t2) :
    (∀ y x, shadowTest t2 white black y x = true → shadowTest t1 white black y x = true) ∧
    foregroundCount t2 white black camHeight camWidth ≤
      foregroundCount t1 white black camHeight camWidth := by
  have hpix : ∀ y x, shadowTest t2 white black y x = true →
      shadowTest t1 white black y x = true := by
    intro y x hx
    simp only [shadowTest, decide_eq_true_eq] at hx ⊢
    omega
  refine ⟨hpix, ?_⟩
  unfold foregroundCount
  apply forLoop_le_forLoop _ _ _ _ 0 0 (le_refl 0)
  intro y a b hab
  apply forLoop_le_forLoop _ _ _ _ a b hab
  intro x a1 b1 hab1
  show (if shadowTest t2 white black y x = true then a1 + 1 else a1) ≤
    (if shadowTest t1 white black y x = true then b1 + 1 else b1)
  by_cases h2 : shadowTest t2 white black y x = true
  · rw [if_pos h2, if_pos (hpix y x h2)]
    omega
  · rw [if_neg h2]
    split <;> omega

/-- An instance of C8: lowering the threshold from 40 to 30 on a 2 × 2 camera. -/
theorem c8_shadow_test_monotone_witness :
    foregroundCount 40 (constMat 2 2 100) (constMat 2 2 65) 2 2 ≤
      foregroundCount 30 (constMat 2 2 100) (constMat 2 2 65) 2 2 :=
  (c8_shadow_test_monotone (constMat 2 2 100) (constMat 2 2 65) 2 2 30 40 (by decide)).2

/-! ## The capture loop -/

theorem captureLoop_eq_captureFrom {ω : Type} (d : Devices ω) (l : List Mat) (w : ω) :
    captureLoop d l w = captureFrom d l ⟨w, 0, []⟩ := rfl

theorem captureFrom_append {ω : Type} (d : Devices ω) (a b : List Mat)
    (st : CaptureState ω) :
    captureFrom d (a ++ b) st = captureFrom d b (captureFrom d a st) := by
  simp [captureFrom, List.foldl_append]

theorem captureFrom_cons {ω : Type} (d : Devices ω) (g : Mat) (l : List Mat)
    (st : CaptureState ω) :
    captureFrom d (g :: l) st = captureFrom d l (captureBody d g st) := rfl

theorem captureBody_captured {ω : Type} (d : Devices ω) (g : Mat) (st : CaptureState ω) :
    (captureBody d g st).captured = st.captured ++ [frameShown d g st.world] := by
  simp [captureBody, frameShown]

theorem captureFrom_captured {ω : Type} (d : Devices ω) (l : List Mat)
    (st : CaptureState ω) :
    ∃ t, (captureFrom d l st).captured = st.captured ++ t ∧ t.length = l.length := by
  induction l generalizing st with
  | nil => exact ⟨[], by simp [captureFrom]⟩
  | cons g l ih =>
    obtain ⟨t, ht, hlen⟩ := ih (captureBody d g st)
    refine ⟨frameShown d g st.world :: t, ?_, by simp [hlen]⟩
    rw [captureFrom_cons, ht, captureBody_captured]
    simp

theorem captureLoop_length {ω : Type} (d : Devices ω) (l : List Mat) (w : ω) :
    (captureLoop d l w).captured.length = l.length := by
  obtain ⟨t, ht, hlen⟩ := captureFrom_captured d l ⟨w, 0, []⟩
  rw [captureLoop_eq_captureFrom, ht]
  simpa using hlen

theorem captureLoop_concat {ω : Type} (d : Devices ω) (l : List Mat) (g : Mat) (w : ω) :
    (captureLoop d (l.concat g) w).captured =
      (captureLoop d l w).captured ++ [frameShown d g (captureLoop d l w).world] := by
  rw [captureLoop_eq_captureFrom, List.concat_eq_append, captureFrom_append,
    captureFrom_cons, ← captureLoop_eq_captureFrom]
  simp [captureFrom, captureBody_captured]

theorem captureLoop_getElem {ω : Type} (d : Devices ω) (l : List Mat) (w : ω)
    (i : Nat) (gimg : Mat) (h : l[i]? = some gimg) :
    (captureLoop d l w).captured[i]? =
      some (frameShown d gimg (captureLoop d (l.take i) w).world) := by
  obtain ⟨hi, hget⟩ := List.getElem?_eq_some_iff.1 h
  have hsplit : l = l.take i ++ gimg :: l.drop (i + 1) := by
    rw [← hget, ← List.drop_eq_getElem_cons hi, List.take_append_drop]
  have hlen : (captureLoop d (l.take i) w).captured.length = i := by
    rw [captureLoop_length, List.length_take]
    omega
  obtain ⟨t, ht, _⟩ := captureFrom_captured d (l.drop (i + 1))
    (captureBody d gimg (captureLoop d (l.take i) w))
  have hfin : (captureLoop d l w).captured =
      (captureLoop d (l.take i) w).captured ++
        frameShown d gimg (captureLoop d (l.take i) w).world :: t := by
    conv_lhs => rw [hsplit]
    rw [captureLoop_eq_captureFrom, captureFrom_append, captureFrom_cons,
      ← captureLoop_eq_captureFrom, ht, captureBody_captured]
    simp
  rw [hfin, List.getElem?_append_right (by omega), hlen]
  simp

/-- C6: the capture loop yields one frame per projected image, frame `i` being
the one the camera returns after pattern `i` has been shown; the pattern list
ends with the black image followed by the white image, so the frame taken as
`white` (the last) is the capture of the white image, the frame taken as `black`
(the second to last) is the capture of the black image, and the frames left in
`captured` are the captures of the generated images, in generation order. -/
theorem c6_capture_aligned_with_patterns {ω : Type} (d : Devices ω)
    (generated : List Mat) (blackCode whiteCode : Mat) (w : ω) :
    (captureLoop d (patternList generated blackCode whiteCode) w).captured.length =
      (patternList generated blackCode whiteCode).length ∧
    (∀ (i : Nat) (gimg : Mat), (patternList generated blackCode whiteCode)[i]? = some gimg →
      (captureLoop d (patternList generated blackCode whiteCode) w).captured[i]? =
        some (frameShown d gimg
          (captureLoop d ((patternList generated blackCode whiteCode).take i) w).world)) ∧
    (patternList generated blackCode whiteCode).getLast? = some whiteCode ∧
    (patternList generated blackCode whiteCode).dropLast.getLast? = some blackCode ∧
    popShadowFrames (captureLoop d (patternList generated blackCode whiteCode) w).captured =
      some (frameShown d whiteCode (captureLoop d (generated.concat blackCode) w).world,
        frameShown d blackCode (captureLoop d generated w).world,
        (captureLoop d generated w).captured) := by
  refine ⟨captureLoop_length d _ w, fun i gimg h => captureLoop_getElem d _ w i gimg h,
    ?_, ?_, ?_⟩
  · simp [patternList]
  · simp [patternList]
  · unfold patternList
    rw [captureLoop_concat, captureLoop_concat]
    simp [popShadowFrames]

/-- An instance of C6: with one generated image, frame 2 is the capture of the
white image, taken in the world reached after the first two captures. -/
theorem c6_capture_aligned_with_patterns_witness :
    (captureLoop countingDevices
        (patternList [constMat 2 2 7] (constMat 2 2 0) (constMat 2 2 255)) 0).captured[2]? =
      some (frameShown countingDevices (constMat 2 2 255)
        (captureLoop countingDevices
          ((patternList [constMat 2 2 7] (constMat 2 2 0) (constMat 2 2 255)).take 2) 0).world) :=
  (c6_capture_aligned_with_patterns countingDevices [constMat 2 2 7] (constMat 2 2 0)
    (constMat 2 2 255) 0).2.1 2 (constMat 2 2 255) rfl

/-! ## The modelled library: bit counts and the generator -/

theorem ceilLog2Aux_spec (n : Nat) (fuel k : Nat) (hfuel : n ≤ 2 ^ (k + fuel))
    (hbelow : ∀ j, j < k → 2 ^ j < n) :
    n ≤ 2 ^ ceilLog2Aux n fuel k ∧ ∀ j, j < ceilLog2Aux n fuel k → 2 ^ j < n := by
  induction fuel generalizing k with
  | zero => exact ⟨by simpa [ceilLog2Aux] using hfuel, by simpa [ceilLog2Aux] using hbelow⟩
  | succ fuel ih =>
    unfold ceilLog2Aux
    by_cases hk : n ≤ 2 ^ k
    · rw [if_pos hk]
      exact ⟨hk, hbelow⟩
    · rw [if_neg hk]
      apply ih
      · have : k + 1 + fuel = k + (fuel + 1) := by omega
        rw [this]
        exact hfuel
      · intro j hj
        by_cases hjk : j = k
        · subst hjk
          omega
        · exact hbelow j (by omega)

theorem ceilLog2_eq_clog (n : Nat) : ceilLog2 n = Nat.clog 2 n := by
  have h := ceilLog2Aux_spec n n 0 (by simpa using (Nat.lt_two_pow n).le) (by simp)
  unfold ceilLog2
  apply le_antisymm
  · by_cases h0 : ceilLog2Aux n n 0 = 0
    · omega
    · have h1 := h.2 (ceilLog2Aux n n 0 - 1) (by omega)
      have h2 := (Nat.pow_lt_iff_lt_clog (by decide : 1 < 2)).1 h1
      omega
  · exact (Nat.le_pow_iff_clog_le (by decide : 1 < 2)).1 h.1

theorem length_generateSpec (Wp Hp : Nat) :
    (generateSpec Wp Hp).length = 2 * ceilLog2 Wp + 2 * ceilLog2 Hp := by
  have hflat : ∀ (n : Nat) (f g : Nat → Mat),
      ((List.range n).flatMap (fun k => [f k, g k])).length = 2 * n := by
    intro n f g
    induction n with
    | zero => simp
    | succ n ih =>
      rw [List.range_succ, List.flatMap_append, List.length_append, ih]
      simp
      omega
  unfold generateSpec
  rw [List.length_append, hflat, hflat]

/-- C7: the projected list `graycodes` is the generated positive/negative
bit-plane images followed by exactly two shadow-mask images; for the configured
pattern resolution `Wp = 1280 / 5 = 256`, `Hp = 800 / 5 = 160` its length is
`2 * ceil(log2 Wp) + 2 * ceil(log2 Hp) + 2 = 2 * 8 + 2 * 8 + 2 = 34`. -/
theorem c7_pattern_list_length :
    GRAYCODEWIDTH = 256 ∧ GRAYCODEHEIGHT = 160 ∧
    graycodesSpec =
      generateSpec GRAYCODEWIDTH GRAYCODEHEIGHT ++
        [(getImagesForShadowMasksSpec GRAYCODEWIDTH GRAYCODEHEIGHT).1,
          (getImagesForShadowMasksSpec GRAYCODEWIDTH GRAYCODEHEIGHT).2] ∧
    (generateSpec GRAYCODEWIDTH GRAYCODEHEIGHT).length =
      2 * Nat.clog 2 GRAYCODEWIDTH + 2 * Nat.clog 2 GRAYCODEHEIGHT ∧
    graycodesSpec.length =
      2 * Nat.clog 2 GRAYCODEWIDTH + 2 * Nat.clog 2 GRAYCODEHEIGHT + 2 ∧
    Nat.clog 2 GRAYCODEWIDTH = 8 ∧ Nat.clog 2 GRAYCODEHEIGHT = 8 ∧
    graycodesSpec.length = 34 := by
  have hw : ceilLog2 GRAYCODEWIDTH = 8 := by decide
  have hh : ceilLog2 GRAYCODEHEIGHT = 8 := by decide
  have hlist : graycodesSpec =
      generateSpec GRAYCODEWIDTH GRAYCODEHEIGHT ++
        [(getImagesForShadowMasksSpec GRAYCODEWIDTH GRAYCODEHEIGHT).1,
          (getImagesForShadowMasksSpec GRAYCODEWIDTH GRAYCODEHEIGHT).2] := by
    simp [graycodesSpec, patternList]
  have hlen : graycodesSpec.length = 34 := by
    rw [hlist, List.length_append, length_generateSpec, hw, hh]
    rfl
  refine ⟨by decide, by decide, hlist, ?_, ?_, ?_, ?_, hlen⟩
  · rw [length_generateSpec, ceilLog2_eq_clog, ceilLog2_eq_clog]
  · rw [hlist, List.length_append, length_generateSpec, ceilLog2_eq_clog, ceilLog2_eq_clog]
    rfl
  · rw [← ceilLog2_eq_clog, hw]
  · rw [← ceilLog2_eq_clog, hh]

/-! ## The modelled decoder -/

theorem readBit_low_contrast (wt : Nat) (frames : List Mat) (x y k : Nat) (pos neg : Mat)
    (hp : frames[2 * k]? = some pos) (hn : frames[2 * k + 1]? = some neg)
    (h : Int.natAbs ((pos.at8 y x : Int) - (neg.at8 y x : Int)) < wt) :
    readBit wt frames x y k = none := by
  simp [readBit, hp, hn, h]

theorem readBits_eq_none (wt : Nat) (frames : List Mat) (x y : Nat) :
    ∀ (n k j : Nat), j < n → readBit wt frames x y (k + j) = none →
      readBits wt frames x y k n = none := by
  intro n
  induction n with
  | zero => intro k j hj; omega
  | succ n ih =>
    intro k j hj hnone
    cases j with
    | zero =>
      simp only [Nat.add_zero] at hnone
      simp [readBits, hnone]
    | succ j =>
      have hrec : readBits wt frames x y (k + 1) n = none := by
        apply ih (k + 1) j (by omega)
        have : k + 1 + j = k + (j + 1) := by omega
        rw [this]
        exact hnone
      cases hb : readBit wt frames x y k <;> simp [readBits, hb, hrec]

theorem readBits_length (wt : Nat) (frames : List Mat) (x y : Nat) :
    ∀ (n k : Nat) (bs : List Bool), readBits wt frames x y k n = some bs → bs.length = n := by
  intro n
  induction n with
  | zero =>
    intro k bs h
    simp [readBits] at h
    simp [← h]
  | succ n ih =>
    intro k bs h
    cases hb : readBit wt frames x y k with
    | none => simp [readBits, hb] at h
    | some b =>
      cases hr : readBits wt frames x y (k + 1) n with
      | none => simp [readBits, hb, hr] at h
      | some rest =>
        simp [readBits, hb, hr] at h
        rw [← h, List.length_cons, ih (k + 1) rest hr]

theorem grayToBinaryFrom_length (prev : Bool) (gray : List Bool) :
    (grayToBinaryFrom prev gray).length = gray.length := by
  induction gray generalizing prev with
  | nil => rfl
  | cons g gs ih => simp [grayToBinaryFrom, ih]

theorem grayToBinary_length (gray : List Bool) :
    (grayToBinary gray).length = gray.length := by
  cases gray with
  | nil => rfl
  | cons g gs => simp [grayToBinary, grayToBinaryFrom_length]

theorem foldl_bits_bound (bits : List Bool) (acc : Nat) :
    bits.foldl (fun a b => 2 * a + b.toNat) acc + 1 ≤ (acc + 1) * 2 ^ bits.length := by
  induction bits generalizing acc with
  | nil => simp
  | cons b bs ih =>
    simp only [List.foldl_cons, List.length_cons]
    have h1 := ih (2 * acc + b.toNat)
    have hb : b.toNat ≤ 1 := by cases b <;> simp
    have h2 : (2 * acc + b.toNat + 1) * 2 ^ bs.length ≤ (2 * acc + 2) * 2 ^ bs.length :=
      Nat.mul_le_mul_right _ (by omega)
    have h3 : (2 * acc + 2) * 2 ^ bs.length = (acc + 1) * 2 ^ (bs.length + 1) := by
      rw [pow_succ]
      ring
    omega

theorem bitsToNat_lt (bits : List Bool) : bitsToNat bits < 2 ^ bits.length := by
  have h := foldl_bits_bound bits 0
  simp only [Nat.zero_add, Nat.one_mul] at h
  exact h

theorem decodeAxis_lt (wt : Nat) (frames : List Mat) (x y k n v : Nat)
    (h : decodeAxis wt frames x y k n = some v) : v < 2 ^ n := by
  unfold decodeAxis at h
  cases hr : readBits wt frames x y k n with
  | none => simp [hr] at h
  | some gray =>
    simp [hr] at h
    have hl := readBits_length wt frames x y n k gray hr
    have hb := bitsToNat_lt (grayToBinary gray)
    rw [grayToBinary_length, hl] at hb
    omega

theorem decodeAxis_eq_none (wt : Nat) (frames : List Mat) (x y k n j : Nat) (hj : j < n)
    (h : readBit wt frames x y (k + j) = none) : decodeAxis wt frames x y k n = none := by
  simp [decodeAxis, readBits_eq_none wt frames x y n k j hj h]

theorem getProjPixelSpec_fails_of_undecidable (captured : List Mat) (x y k : Nat)
    (hk : k < ceilLog2 GRAYCODEWIDTH + ceilLog2 GRAYCODEHEIGHT)
    (h : readBit WHITETHRESHOLD captured x y k = none) :
    (getProjPixelSpec captured x y).1 = true := by
  have hnone : decodePixelSpec GRAYCODEWIDTH GRAYCODEHEIGHT WHITETHRESHOLD captured x y =
      none := by
    unfold decodePixelSpec
    by_cases hcol : k < ceilLog2 GRAYCODEWIDTH
    · have h0 : readBit WHITETHRESHOLD captured x y (0 + k) = none := by simpa using h
      rw [decodeAxis_eq_none WHITETHRESHOLD captured x y 0 _ k hcol h0]
    · have h1 : readBit WHITETHRESHOLD captured x y
          (ceilLog2 GRAYCODEWIDTH + (k - ceilLog2 GRAYCODEWIDTH)) = none := by
        have : ceilLog2 GRAYCODEWIDTH + (k - ceilLog2 GRAYCODEWIDTH) = k := by omega
        rw [this]
        exact h
      rw [decodeAxis_eq_none WHITETHRESHOLD captured x y (ceilLog2 GRAYCODEWIDTH) _
        (k - ceilLog2 GRAYCODEWIDTH) (by omega) h1]
      cases decodeAxis WHITETHRESHOLD captured x y 0 (ceilLog2 GRAYCODEWIDTH) <;> rfl
  simp [getProjPixelSpec, hnone]

theorem getProjPixelSpec_success (captured : List Mat) (x y : Nat)
    (h : (getProjPixelSpec captured x y).1 = false) :
    ∃ col row : Nat,
      decodeAxis WHITETHRESHOLD captured x y 0 (ceilLog2 GRAYCODEWIDTH) = some col ∧
      decodeAxis WHITETHRESHOLD captured x y (ceilLog2 GRAYCODEWIDTH)
        (ceilLog2 GRAYCODEHEIGHT) = some row ∧
      col < GRAYCODEWIDTH ∧ row < GRAYCODEHEIGHT ∧
      (getProjPixelSpec captured x y).2 = ⟨col, row⟩ := by
  unfold getProjPixelSpec decodePixelSpec at h ⊢
  cases hc : decodeAxis WHITETHRESHOLD captured x y 0 (ceilLog2 GRAYCODEWIDTH) with
  | none => simp [hc] at h
  | some col =>
    cases hr : decodeAxis WHITETHRESHOLD captured x y (ceilLog2 GRAYCODEWIDTH)
        (ceilLog2 GRAYCODEHEIGHT) with
    | none => simp [hc, hr] at h
    | some row =>
      by_cases hb : col < GRAYCODEWIDTH ∧ row < GRAYCODEHEIGHT
      · exact ⟨col, row, rfl, rfl, hb.1, hb.2, by simp [hb]⟩
      · simp [hc, hr, hb] at h

theorem getProjPixelSpec_fails_out_of_range (captured : List Mat) (x y col row : Nat)
    (hc : decodeAxis WHITETHRESHOLD captured x y 0 (ceilLog2 GRAYCODEWIDTH) = some col)
    (hr : decodeAxis WHITETHRESHOLD captured x y (ceilLog2 GRAYCODEWIDTH)
      (ceilLog2 GRAYCODEHEIGHT) = some row)
    (hout : ¬ (col < GRAYCODEWIDTH ∧ row < GRAYCODEHEIGHT)) :
    (getProjPixelSpec captured x y).1 = true := by
  simp [getProjPixelSpec, decodePixelSpec, hc, hr, hout]

theorem no_entry_of_decoder_failure (dec : Decoder) (white black : Mat) (captured : List Mat)
    (camHeight camWidth x y : Nat) (h : (dec captured x y).1 = true) :
    ¬ ∃ e ∈ (buildLoop dec white black captured camHeight camWidth).c2pList,
      e.cx = (x : Int) ∧ e.cy = (y : Int) := by
  intro hex
  have key := (hasEntryAt_buildLoop dec white black captured camHeight camWidth x y).1 hex
  have hacc := (accepted_iff dec white black captured y x).1 key.2.2
  rw [h] at hacc
  exact absurd hacc.2 (by decide)

theorem accepted_spec_entry (white black : Mat) (captured : List Mat)
    (camHeight camWidth x y : Nat) (hx : x < camWidth) (hy : y < camHeight)
    (hacc : accepted getProjPixelSpec white black captured y x = true) :
    ∃ col row : Nat,
      decodeAxis WHITETHRESHOLD captured x y 0 (ceilLog2 GRAYCODEWIDTH) = some col ∧
      decodeAxis WHITETHRESHOLD captured x y (ceilLog2 GRAYCODEWIDTH)
        (ceilLog2 GRAYCODEHEIGHT) = some row ∧
      col < 256 ∧ row < 160 ∧
      (getProjPixelSpec captured x y).2 = ⟨col, row⟩ ∧
      entryAt getProjPixelSpec captured y x = ⟨x, y, 5 * (col : Int), 5 * (row : Int)⟩ ∧
      (buildLoop getProjPixelSpec white black captured camHeight camWidth).c2pX.at16 y x = col ∧
      (buildLoop getProjPixelSpec white black captured camHeight camWidth).c2pY.at16 y x = row := by
  have hsucc := ((accepted_iff _ _ _ _ _ _).1 hacc).2
  obtain ⟨col, row, hc, hr, hcol, hrow, hpix⟩ := getProjPixelSpec_success captured x y hsucc
  have hcol1 : col < 256 := hcol
  have hrow1 : row < 160 := hrow
  have hcond : (y < camHeight ∧ x < camWidth) ∧
      accepted getProjPixelSpec white black captured y x = true := ⟨⟨hy, hx⟩, hacc⟩
  refine ⟨col, row, hc, hr, hcol1, hrow1, hpix, ?_, ?_, ?_⟩
  · have h1 : wrapInt32 ((col : Int) * 5) = (col : Int) * 5 :=
      wrapInt32_of_fits _ (by omega)
    have h2 : wrapInt32 ((row : Int) * 5) = (row : Int) * 5 :=
      wrapInt32_of_fits _ (by omega)
    simp only [entryAt, hpix, GRAYCODEWIDTHSTEP, GRAYCODEHEIGHTSTEP, Nat.cast_ofNat, h1, h2]
    simp [mul_comm]
  · simp only [Mat.at16, buildLoop_c2pX, if_pos hcond, hpix]
    omega
  · simp only [Mat.at16, buildLoop_c2pY, if_pos hcond, hpix]
    omega

/-! ## Claims that rest on the modelled decoder -/

/-- C4: with the decoder modelled from the specification and the white threshold
5, a camera pixel `(x, y)` at which the positive and the negative frame of at
least one of the 16 bit-planes differ by less than `WHITETHRESHOLD` has no entry
in the table, whatever the other bit-planes and the white and black frames are;
and when positive and negative agree at every pixel of every bit-plane the table
is empty. -/
theorem c4_low_contrast_pixel_has_no_entry (white black : Mat) (captured : List Mat)
    (camHeight camWidth : Nat) :
    ceilLog2 GRAYCODEWIDTH + ceilLog2 GRAYCODEHEIGHT = 16 ∧
    (∀ (x y k : Nat) (pos neg : Mat),
      k < ceilLog2 GRAYCODEWIDTH + ceilLog2 GRAYCODEHEIGHT →
      captured[2 * k]? = some pos → captured[2 * k + 1]? = some neg →
      Int.natAbs ((pos.at8 y x : Int) - (neg.at8 y x : Int)) < WHITETHRESHOLD →
      ¬ ∃ e ∈ (buildLoop getProjPixelSpec white black captured camHeight camWidth).c2pList,
        e.cx = (x : Int) ∧ e.cy = (y : Int)) ∧
    ((∀ (k : Nat) (pos neg : Mat),
        k < ceilLog2 GRAYCODEWIDTH + ceilLog2 GRAYCODEHEIGHT →
        captured[2 * k]? = some pos → captured[2 * k + 1]? = some neg →
        ∀ y x, pos.at8 y x = neg.at8 y x) →
      (buildLoop getProjPixelSpec white black captured camHeight camWidth).c2pList = []) := by
  have h16 : ceilLog2 GRAYCODEWIDTH + ceilLog2 GRAYCODEHEIGHT = 16 := by decide
  refine ⟨h16, ?_, ?_⟩
  · intro x y k pos neg hk hp hn hlow
    apply no_entry_of_decoder_failure
    exact getProjPixelSpec_fails_of_undecidable captured x y k hk
      (readBit_low_contrast _ _ _ _ _ pos neg hp hn hlow)
  · intro hflat
    rw [List.eq_nil_iff_forall_not_mem]
    intro e he
    obtain ⟨y, _, x, _, hacc, _⟩ := (mem_buildLoop_list _ _ _ _ _ _ _).1 he
    have hsucc := ((accepted_iff _ _ _ _ _ _).1 hacc).2
    have hnone : readBit WHITETHRESHOLD captured x y 0 = none := by
      cases hp : captured[2 * 0]? with
      | none =>
        unfold readBit
        rw [hp]
      | some pos =>
        cases hn : captured[2 * 0 + 1]? with
        | none =>
          unfold readBit
          rw [hp, hn]
        | some neg =>
          apply readBit_low_contrast _ _ _ _ _ pos neg hp hn
          rw [hflat 0 pos neg (by omega) hp hn y x]
          simp [WHITETHRESHOLD]
    have hfail := getProjPixelSpec_fails_of_undecidable captured x y 0 (by omega) hnone
    rw [hfail] at hsucc
    exact absurd hsucc (by decide)

/-- An instance of C4: in a capture without contrast on bit-plane 0, pixel
`(0, 0)` has no entry although the white and black frames are far apart. -/
theorem c4_low_contrast_pixel_has_no_entry_witness :
    ¬ ∃ e ∈ (buildLoop getProjPixelSpec (constMat 2 2 200) (constMat 2 2 0)
        framesFlat 2 2).c2pList, e.cx = ((0 : Nat) : Int) ∧ e.cy = ((0 : Nat) : Int) :=
  (c4_low_contrast_pixel_has_no_entry (constMat 2 2 200) (constMat 2 2 0) framesFlat
    2 2).2.1 0 0 0 (constMat 2 2 90) (constMat 2 2 90) (by decide) rfl rfl (by decide)

/-- C5: with the decoder modelled from the specification, every entry of the
table has `px = 5u`, `py = 5v` for the decoded column `u < 256` and row
`v < 160` of its camera pixel, hence `0 ≤ px < 1280` and `0 ≤ py < 800`; and a
camera pixel whose decoded column or row is outside `[0, 256) × [0, 160)` has no
entry. -/
theorem c5_projector_coordinate_in_bounds (white black : Mat) (captured : List Mat)
    (camHeight camWidth : Nat) :
    (∀ e ∈ (buildLoop getProjPixelSpec white black captured camHeight camWidth).c2pList,
      ∃ x y u v : Nat, e.cx = (x : Int) ∧ e.cy = (y : Int) ∧
        decodeAxis WHITETHRESHOLD captured x y 0 (ceilLog2 GRAYCODEWIDTH) = some u ∧
        decodeAxis WHITETHRESHOLD captured x y (ceilLog2 GRAYCODEWIDTH)
          (ceilLog2 GRAYCODEHEIGHT) = some v ∧
        u < 256 ∧ v < 160 ∧ e.px = 5 * (u : Int) ∧ e.py = 5 * (v : Int) ∧
        0 ≤ e.px ∧ e.px < 1280 ∧ 0 ≤ e.py ∧ e.py < 800) ∧
    (∀ x y col row : Nat,
      decodeAxis WHITETHRESHOLD captured x y 0 (ceilLog2 GRAYCODEWIDTH) = some col →
      decodeAxis WHITETHRESHOLD captured x y (ceilLog2 GRAYCODEWIDTH)
        (ceilLog2 GRAYCODEHEIGHT) = some row →
      ¬ (col < 256 ∧ row < 160) →
      ¬ ∃ e ∈ (buildLoop getProjPixelSpec white black captured camHeight camWidth).c2pList,
        e.cx = (x : Int) ∧ e.cy = (y : Int)) := by
  refine ⟨?_, ?_⟩
  · intro e he
    obtain ⟨y, hy, x, hx, hacc, rfl⟩ := (mem_buildLoop_list _ _ _ _ _ _ _).1 he
    obtain ⟨col, row, hc, hr, hcol, hrow, _, hentry, _, _⟩ :=
      accepted_spec_entry white black captured camHeight camWidth x y hx hy hacc
    refine ⟨x, y, col, row, ?_, ?_, hc, hr, hcol, hrow, ?_, ?_, ?_, ?_, ?_, ?_⟩ <;>
      (rw [hentry]; first | done | (simp only []; omega))
  · intro x y col row hc hr hout
    apply no_entry_of_decoder_failure
    exact getProjPixelSpec_fails_out_of_range captured x y col row hc hr hout

/-- Instances of C5: the noiseless capture of column 2, row 1 gives an entry with
`px = 10`, `py = 5`; a capture whose row bits decode to 170 gives no entry. -/
theorem c5_projector_coordinate_in_bounds_witness :
    (∃ x y u v : Nat, (⟨0, 0, 10, 5⟩ : C2P).cx = (x : Int) ∧ (⟨0, 0, 10, 5⟩ : C2P).cy = (y : Int) ∧
        decodeAxis WHITETHRESHOLD framesTwoOne x y 0 (ceilLog2 GRAYCODEWIDTH) = some u ∧
        decodeAxis WHITETHRESHOLD framesTwoOne x y (ceilLog2 GRAYCODEWIDTH)
          (ceilLog2 GRAYCODEHEIGHT) = some v ∧
        u < 256 ∧ v < 160 ∧ (⟨0, 0, 10, 5⟩ : C2P).px = 5 * (u : Int) ∧
        (⟨0, 0, 10, 5⟩ : C2P).py = 5 * (v : Int) ∧
        0 ≤ (⟨0, 0, 10, 5⟩ : C2P).px ∧ (⟨0, 0, 10, 5⟩ : C2P).px < 1280 ∧
        0 ≤ (⟨0, 0, 10, 5⟩ : C2P).py ∧ (⟨0, 0, 10, 5⟩ : C2P).py < 800) ∧
    ¬ ∃ e ∈ (buildLoop getProjPixelSpec (constMat 2 2 200) (constMat 2 2 0)
        framesAllOnes 2 2).c2pList, e.cx = ((0 : Nat) : Int) ∧ e.cy = ((0 : Nat) : Int) :=
  ⟨(c5_projector_coordinate_in_bounds (constMat 1 1 200) (constMat 1 1 0) framesTwoOne
      1 1).1 ⟨0, 0, 10, 5⟩ (by decide),
    (c5_projector_coordinate_in_bounds (constMat 2 2 200) (constMat 2 2 0) framesAllOnes
      2 2).2 0 0 170 170 (by decide) (by decide) (by decide)⟩

/-- C10: with the decoder modelled from the specification, every entry
`(cx, cy, px, py)` of the table satisfies `px = GRAYCODEWIDTHSTEP * c2pX[cy,cx]`
and `py = GRAYCODEHEIGHTSTEP * c2pY[cy,cx]` with both strides 5; the maps hold
the decoded pattern cell itself, the 16-bit store having lost nothing because
the decoded column is below 256 and the decoded row below 160. -/
theorem c10_table_is_stride_times_map (white black : Mat) (captured : List Mat)
    (camHeight camWidth : Nat) :
    GRAYCODEWIDTHSTEP = 5 ∧ GRAYCODEHEIGHTSTEP = 5 ∧
    ∀ e ∈ (buildLoop getProjPixelSpec white black captured camHeight camWidth).c2pList,
      ∃ x y : Nat, e.cx = (x : Int) ∧ e.cy = (y : Int) ∧
        e.px = (GRAYCODEWIDTHSTEP : Int) *
          ((buildLoop getProjPixelSpec white black captured camHeight camWidth).c2pX.at16 y x
            : Int) ∧
        e.py = (GRAYCODEHEIGHTSTEP : Int) *
          ((buildLoop getProjPixelSpec white black captured camHeight camWidth).c2pY.at16 y x
            : Int) ∧
        (((buildLoop getProjPixelSpec white black captured camHeight camWidth).c2pX.at16 y x
            : Nat) : Int) = (getProjPixelSpec captured x y).2.x ∧
        (((buildLoop getProjPixelSpec white black captured camHeight camWidth).c2pY.at16 y x
            : Nat) : Int) = (getProjPixelSpec captured x y).2.y ∧
        (buildLoop getProjPixelSpec white black captured camHeight camWidth).c2pX.at16 y x
          < 256 ∧
        (buildLoop getProjPixelSpec white black captured camHeight camWidth).c2pY.at16 y x
          < 160 := by
  refine ⟨rfl, rfl, ?_⟩
  intro e he
  obtain ⟨y, hy, x, hx, hacc, rfl⟩ := (mem_buildLoop_list _ _ _ _ _ _ _).1 he
  obtain ⟨col, row, _, _, hcol, hrow, hpix, hentry, hX, hY⟩ :=
    accepted_spec_entry white black captured camHeight camWidth x y hx hy hacc
  refine ⟨x, y, ?_, ?_, ?_, ?_, ?_, ?_, ?_, ?_⟩
  · rw [hentry]
  · rw [hentry]
  · rw [hentry, hX]
    simp [GRAYCODEWIDTHSTEP]
  · rw [hentry, hY]
    simp [GRAYCODEHEIGHTSTEP]
  · rw [hX, hpix]
  · rw [hY, hpix]
  · rw [hX]
    exact hcol
  · rw [hY]
    exact hrow

/-- An instance of C10: the noiseless capture of column 2, row 1 on a one-pixel
camera; the entry `(0, 0, 10, 5)` is five times the map cell `(2, 1)`. -/
theorem c10_table_is_stride_times_map_witness :
    ∃ x y : Nat, (⟨0, 0, 10, 5⟩ : C2P).cx = (x : Int) ∧ (⟨0, 0, 10, 5⟩ : C2P).cy = (y : Int) ∧
      (⟨0, 0, 10, 5⟩ : C2P).px = (GRAYCODEWIDTHSTEP : Int) *
        ((buildLoop getProjPixelSpec (constMat 1 1 200) (constMat 1 1 0)
          framesTwoOne 1 1).c2pX.at16 y x : Int) ∧
      (⟨0, 0, 10, 5⟩ : C2P).py = (GRAYCODEHEIGHTSTEP : Int) *
        ((buildLoop getProjPixelSpec (constMat 1 1 200) (constMat 1 1 0)
          framesTwoOne 1 1).c2pY.at16 y x : Int) ∧
      (((buildLoop getProjPixelSpec (constMat 1 1 200) (constMat 1 1 0)
          framesTwoOne 1 1).c2pX.at16 y x : Nat) : Int) =
        (getProjPixelSpec framesTwoOne x y).2.x ∧
      (((buildLoop getProjPixelSpec (constMat 1 1 200) (constMat 1 1 0)
          framesTwoOne 1 1).c2pY.at16 y x : Nat) : Int) =
        (getProjPixelSpec framesTwoOne x y).2.y ∧
      (buildLoop getProjPixelSpec (constMat 1 1 200) (constMat 1 1 0)
        framesTwoOne 1 1).c2pX.at16 y x < 256 ∧
      (buildLoop getProjPixelSpec (constMat 1 1 200) (constMat 1 1 0)
        framesTwoOne 1 1).c2pY.at16 y x < 160 :=
  (c10_table_is_stride_times_map (constMat 1 1 200) (constMat 1 1 0) framesTwoOne
    1 1).2.2 ⟨0, 0, 10, 5⟩ (by decide)

/-! ## The decode stage on a complete capture -/

theorem decodeStage_of_capture (dec : Decoder) (first : Mat) (rest : List Mat)
    (black white : Mat) :
    decodeStage dec (((first :: rest).concat black).concat white) =
      some (buildLoop dec white black (first :: rest) first.rows first.cols) := by
  have hpop : popShadowFrames (((first :: rest).concat black).concat white) =
      some (white, black, first :: rest) := by
    simp only [List.concat_eq_append]
    unfold popShadowFrames
    simp only [List.getLast?_concat, List.dropLast_concat]
  unfold decodeStage
  rw [hpop]

end ProcamCalibration
